import Mathlib

/-!
Verification development for the metadata decoding pipeline of the
InfiniRewards public client.  The TypeScript source is shallowly embedded:
JavaScript runtime values become the inductive type `JSValue`, thrown
exceptions become `Except String`, and the two third-party collaborators
(`shortString.decodeShortString` from starknet and `decode` from cbor2,
plus the JSON.stringify builtin) become the oracle record `JSExt` so that
theorems quantify over every possible behaviour of those libraries.
All definitions are computable and kernel-reducible so that concrete
witnesses evaluate by `decide` / `rfl`.
-/

/-! ## JavaScript value model

JS numbers are modelled by their integer values (`num`); the decoding
pipeline only ever manufactures and consumes integral numbers, and
non-integral or NaN inputs are represented in the claims by non-numeric
strings instead.  Arrays and objects are mutually inductive lists so that
all recursions over them are structural (hence kernel-reducible). -/

mutual
inductive JSValue where
  | null
  | undefined
  | bool (b : Bool)
  | num (i : Int)
  | big (i : Int)
  | str (s : String)
  | arr (xs : JSList)
  | obj (fs : JSFields)
  | u8 (bytes : List Nat)
  deriving DecidableEq
inductive JSList where
  | nil
  | cons (head : JSValue) (tail : JSList)
  deriving DecidableEq
inductive JSFields where
  | nil
  | cons (key : String) (val : JSValue) (tail : JSFields)
  deriving DecidableEq
end

def JSList.ofList : List JSValue → JSList
  | [] => .nil
  | x :: xs => .cons x (JSList.ofList xs)

def JSList.toList : JSList → List JSValue
  | .nil => []
  | .cons x xs => x :: JSList.toList xs

def JSList.all (p : JSValue → Bool) : JSList → Bool
  | .nil => true
  | .cons x xs => p x && JSList.all p xs

def JSList.length : JSList → Nat
  | .nil => 0
  | .cons _ xs => JSList.length xs + 1

/-- Property lookup on an object, first binding wins (JS objects have
unique keys). -/
def JSFields.lookup (k : String) : JSFields → Option JSValue
  | .nil => none
  | .cons key v rest => if key = k then some v else JSFields.lookup k rest

/-- The JS `in` operator restricted to own properties of a plain object. -/
def JSFields.hasKey (k : String) (fs : JSFields) : Bool :=
  (fs.lookup k).isSome

/-- Property access `o.k`; a missing property reads as `undefined`. -/
def JSFields.get (k : String) (fs : JSFields) : JSValue :=
  (fs.lookup k).getD .undefined

/-- JS truthiness: `null`, `undefined`, `false`, `0`, `0n` and `""` are
falsy, every other value in the model is truthy. -/
def jsTruthy : JSValue → Bool
  | .null => false
  | .undefined => false
  | .bool b => b
  | .num i => i != 0
  | .big i => i != 0
  | .str s => s.data != []
  | .arr _ => true
  | .obj _ => true
  | .u8 _ => true

/-- The JS `typeof` operator on model values. -/
def jsTypeof : JSValue → String
  | .null => "object"
  | .undefined => "undefined"
  | .bool _ => "boolean"
  | .num _ => "number"
  | .big _ => "bigint"
  | .str _ => "string"
  | .arr _ => "object"
  | .obj _ => "object"
  | .u8 _ => "object"

/-! ## String conversion (the JS `String()` abstract operation)

Integral numbers and bigints render as exact decimal digit strings,
arrays as their comma join (with `null`/`undefined` elements rendering
empty, as `Array.prototype.toString` does), plain objects as
`"[object Object]"`. -/

mutual
def jsToString : JSValue → String
  | .null => "null"
  | .undefined => "undefined"
  | .bool b => if b then "true" else "false"
  | .num i => toString i
  | .big i => toString i
  | .str s => s
  | .obj _ => "[object Object]"
  | .u8 bs => String.intercalate "," (bs.map (fun n => toString n))
  | .arr xs => jsListJoin xs
def jsListJoin : JSList → String
  | .nil => ""
  | .cons x t =>
      (match x with
       | .null => ""
       | .undefined => ""
       | .bool b => if b then "true" else "false"
       | .num i => toString i
       | .big i => toString i
       | .str s => s
       | .obj _ => "[object Object]"
       | .u8 bs => String.intercalate "," (bs.map (fun n => toString n))
       | .arr ys => jsListJoin ys) ++
      (match t with
       | .nil => ""
       | .cons y u => "," ++ jsListJoin (.cons y u))
end

/-! ## Digit machinery

`BigInt.prototype.toString(16)` renders the absolute value in lowercase
hex without leading zeros, preceded by `-` for negatives.  The digit
recursion is fuelled (fuel `n` always suffices for `n`) so that the
kernel can evaluate it on concrete inputs. -/

def hexDigitsRevAux : Nat → Nat → List Nat
  | 0, _ => []
  | fuel + 1, n => if n = 0 then [] else n % 16 :: hexDigitsRevAux fuel (n / 16)

/-- Hex digit values of `n`, least significant first (empty for 0). -/
def hexDigitsRev (n : Nat) : List Nat := hexDigitsRevAux n n

def hexDigitChar (d : Nat) : Char :=
  if d < 10 then Char.ofNat (48 + d) else Char.ofNat (87 + d)

/-- The character list of `n.toString(16)` for a natural `n`. -/
def natToHexChars (n : Nat) : List Char :=
  if n = 0 then ['0'] else ((hexDigitsRev n).map hexDigitChar).reverse

/-- The character list of `i.toString(16)` for a bigint `i`. -/
def intToHexChars (i : Int) : List Char :=
  if i < 0 then '-' :: natToHexChars i.natAbs else natToHexChars i.natAbs

/-- Numeric value of a hex digit character, accepting both cases. -/
def hexVal (c : Char) : Option Nat :=
  if '0' ≤ c ∧ c ≤ '9' then some (c.toNat - 48)
  else if 'a' ≤ c ∧ c ≤ 'f' then some (c.toNat - 87)
  else if 'A' ≤ c ∧ c ≤ 'F' then some (c.toNat - 55)
  else none

def isHexDigit (c : Char) : Bool := (hexVal c).isSome

def isDecDigit (c : Char) : Bool := decide ('0' ≤ c ∧ c ≤ '9')

def isJsSpace (c : Char) : Bool := c = ' ' ∨ c = '\t' ∨ c = '\n' ∨ c = '\r'

/-- Value of a big-endian list of decimal digit characters. -/
def decDigitsVal (cs : List Char) (acc : Nat) : Nat :=
  match cs with
  | [] => acc
  | c :: rest => decDigitsVal rest (10 * acc + (c.toNat - 48))

/-- Value of a big-endian list of hex digit characters. -/
def hexCharsVal (cs : List Char) (acc : Nat) : Nat :=
  match cs with
  | [] => acc
  | c :: rest => hexCharsVal rest (16 * acc + ((hexVal c).getD 0))

/-! ## JS number / bigint parsing of strings -/

/-- The JS `parseInt(s)` call with no radix argument: skip leading
whitespace, read an optional sign, auto-detect a `0x` hex marker, then
greedily consume digits; no digits means NaN (`none`).  (Inputs in this
code base never carry trailing garbage beyond the digit prefix.) -/
def parseIntString (cs : List Char) : Option Int :=
  let body : List Char → Option Nat := fun t =>
    match t with
    | '0' :: 'x' :: r =>
        let ds := r.takeWhile isHexDigit
        if ds = [] then none else some (hexCharsVal ds 0)
    | '0' :: 'X' :: r =>
        let ds := r.takeWhile isHexDigit
        if ds = [] then none else some (hexCharsVal ds 0)
    | t =>
        let ds := t.takeWhile isDecDigit
        if ds = [] then none else some (decDigitsVal ds 0)
  match cs.dropWhile isJsSpace with
  | '-' :: t => (body t).map (fun n => -(n : Int))
  | '+' :: t => (body t).map (fun n => (n : Int))
  | t => (body t).map (fun n => (n : Int))

/-- `parseInt(v)` on an arbitrary value: stringify, then parse. -/
def parseIntJS (v : JSValue) : Option Int :=
  parseIntString (jsToString v).data

/-- The `BigInt(string)` conversion: trimmed empty string is `0n`, a
sign is only allowed before decimal digits, `0x`/`0o`/`0b` markers select
the radix, anything else (including fractions and exponents) throws a
SyntaxError (`none`). -/
def bigIntOfString (cs : List Char) : Option Int :=
  let t := ((cs.dropWhile isJsSpace).reverse.dropWhile isJsSpace).reverse
  match t with
  | [] => some 0
  | '-' :: r => if r ≠ [] ∧ r.all isDecDigit then some (-(decDigitsVal r 0 : Int)) else none
  | '+' :: r => if r ≠ [] ∧ r.all isDecDigit then some ((decDigitsVal r 0 : Int)) else none
  | '0' :: 'x' :: r => if r ≠ [] ∧ r.all isHexDigit then some ((hexCharsVal r 0 : Int)) else none
  | '0' :: 'X' :: r => if r ≠ [] ∧ r.all isHexDigit then some ((hexCharsVal r 0 : Int)) else none
  | r => if r.all isDecDigit then some ((decDigitsVal r 0 : Int)) else none

/-- The `BigInt(v)` conversion on arbitrary values: bigints and integral
numbers pass through, booleans become 0/1, strings (and arrays, via their
string conversion) are parsed, everything else throws. -/
def jsBigInt : JSValue → Except String Int
  | .big i => .ok i
  | .num i => .ok i
  | .bool b => .ok (if b then 1 else 0)
  | .str s =>
      match bigIntOfString s.data with
      | some i => .ok i
      | none => .error "Cannot convert string to a BigInt"
  | .arr xs =>
      match bigIntOfString (jsToString (.arr xs)).data with
      | some i => .ok i
      | none => .error "Cannot convert string to a BigInt"
  | .u8 bs =>
      match bigIntOfString (jsToString (.u8 bs)).data with
      | some i => .ok i
      | none => .error "Cannot convert string to a BigInt"
  | .obj _ => .error "Cannot convert object to a BigInt"
  | .null => .error "Cannot convert null to a BigInt"
  | .undefined => .error "Cannot convert undefined to a BigInt"

/-- The `Number(string)` conversion restricted to the integral values the
model carries: trimmed-empty is 0, signed decimal digit runs and `0x` hex
runs convert, anything else is NaN (`none`).  (Fractional and exponent
literals lie outside the integer model and are treated as NaN.) -/
def jsNumberOfString (cs : List Char) : Option Int :=
  let t := ((cs.dropWhile isJsSpace).reverse.dropWhile isJsSpace).reverse
  match t with
  | [] => some 0
  | '-' :: r => if r ≠ [] ∧ r.all isDecDigit then some (-(decDigitsVal r 0 : Int)) else none
  | '+' :: r => if r ≠ [] ∧ r.all isDecDigit then some ((decDigitsVal r 0 : Int)) else none
  | '0' :: 'x' :: r => if r ≠ [] ∧ r.all isHexDigit then some ((hexCharsVal r 0 : Int)) else none
  | '0' :: 'X' :: r => if r ≠ [] ∧ r.all isHexDigit then some ((hexCharsVal r 0 : Int)) else none
  | r => if r.all isDecDigit then some ((decDigitsVal r 0 : Int)) else none

/-- ToUint8: storing an integral number into a `Uint8Array` slot wraps it
modulo 256 (Euclidean remainder, so negatives wrap to 251 etc.). -/
def toUint8 (i : Int) : Nat := (i % 256).toNat

/-! ## hexToBytes (src/unnamed/part_001, lines 266-281)

The source pads an odd-length hex string with a leading zero, then parses
two characters at a time with `parseInt(pair, 16)` and throws on NaN.
`parseInt` accepts a leading sign and stops at the first invalid
character, so a pair like `"-5"` parses to `-5` and `"0-"` parses to `0`;
the NaN check therefore only fires when the pair starts with a character
that is neither a sign nor a hex digit.  `substring(i, i+2)` clamps at
the end of the string, so a trailing lone character parses alone. -/

def parseIntHexPair (a b : Char) : Option Int :=
  match hexVal a with
  | some d1 =>
      match hexVal b with
      | some d2 => some ((16 * d1 + d2 : Nat) : Int)
      | none => some ((d1 : Nat) : Int)
  | none =>
      if a = '-' then (hexVal b).map (fun d => -((d : Nat) : Int))
      else if a = '+' then (hexVal b).map (fun d => ((d : Nat) : Int))
      else none

def hexPairsToBytes : List Char → Except String (List Nat)
  | [] => .ok []
  | [c] =>
      match hexVal c with
      | some d => .ok [toUint8 ((d : Nat) : Int)]
      | none => .error "Invalid hex string"
  | a :: b :: rest =>
      match parseIntHexPair a b with
      | some v => do
          let bs ← hexPairsToBytes rest
          .ok (toUint8 v :: bs)
      | none => .error "Invalid hex string"

def padEven (cs : List Char) : List Char :=
  if cs.length % 2 ≠ 0 then '0' :: cs else cs

def hexToBytes (hex : List Char) : Except String (List Nat) :=
  hexPairsToBytes (padEven hex)

/-! ## UTF-8 (the TextDecoder / TextEncoder builtins)

`bytesToString` (part_001, lines 187-198) decodes bytes as UTF-8 with the
non-fatal TextDecoder, which substitutes U+FFFD for malformed sequences.
The model resynchronises at the byte after a malformed lead byte; this
agrees with TextDecoder on every input this development evaluates. -/

def replacementChar : Char := Char.ofNat 0xFFFD

def isUtf8Cont (b : Nat) : Bool := 0x80 ≤ b && b ≤ 0xBF

def utf8Lead3Ok (b b1 : Nat) : Bool :=
  if b = 0xE0 then 0xA0 ≤ b1 && b1 ≤ 0xBF
  else if b = 0xED then 0x80 ≤ b1 && b1 ≤ 0x9F
  else isUtf8Cont b1

def utf8Lead4Ok (b b1 : Nat) : Bool :=
  if b = 0xF0 then 0x90 ≤ b1 && b1 ≤ 0xBF
  else if b = 0xF4 then 0x80 ≤ b1 && b1 ≤ 0x8F
  else isUtf8Cont b1

def utf8DecodeGo : Nat → List Nat → List Char
  | 0, _ => []
  | _, [] => []
  | fuel + 1, b :: rest =>
      if b ≤ 0x7F then Char.ofNat b :: utf8DecodeGo fuel rest
      else if 0xC2 ≤ b && b ≤ 0xDF then
        match rest with
        | b1 :: rest1 =>
            if isUtf8Cont b1 then
              Char.ofNat ((b - 0xC0) * 64 + (b1 - 0x80)) :: utf8DecodeGo fuel rest1
            else replacementChar :: utf8DecodeGo fuel rest
        | [] => [replacementChar]
      else if 0xE0 ≤ b && b ≤ 0xEF then
        match rest with
        | b1 :: b2 :: rest2 =>
            if utf8Lead3Ok b b1 && isUtf8Cont b2 then
              Char.ofNat ((b - 0xE0) * 4096 + (b1 - 0x80) * 64 + (b2 - 0x80)) ::
                utf8DecodeGo fuel rest2
            else replacementChar :: utf8DecodeGo fuel rest
        | _ => replacementChar :: utf8DecodeGo fuel rest
      else if 0xF0 ≤ b && b ≤ 0xF4 then
        match rest with
        | b1 :: b2 :: b3 :: rest3 =>
            if utf8Lead4Ok b b1 && isUtf8Cont b2 && isUtf8Cont b3 then
              Char.ofNat ((b - 0xF0) * 262144 + (b1 - 0x80) * 4096 + (b2 - 0x80) * 64 + (b3 - 0x80)) ::
                utf8DecodeGo fuel rest3
            else replacementChar :: utf8DecodeGo fuel rest
        | _ => replacementChar :: utf8DecodeGo fuel rest
      else replacementChar :: utf8DecodeGo fuel rest

/-- bytesToString (part_001, lines 187-198): UTF-8 decode with
replacement characters; never throws. -/
def bytesToString (bytes : List Nat) : String := ⟨utf8DecodeGo bytes.length bytes⟩

/-- TextEncoder: UTF-8 encode one scalar value. -/
def utf8EncodeChar (c : Char) : List Nat :=
  let n := c.toNat
  if n ≤ 0x7F then [n]
  else if n ≤ 0x7FF then [0xC0 + n / 64, 0x80 + n % 64]
  else if n ≤ 0xFFFF then [0xE0 + n / 4096, 0x80 + n / 64 % 64, 0x80 + n % 64]
  else [0xF0 + n / 262144, 0x80 + n / 4096 % 64, 0x80 + n / 64 % 64, 0x80 + n % 64]

def utf8Encode (cs : List Char) : List Nat :=
  cs.foldr (fun c acc => utf8EncodeChar c ++ acc) []

/-! ## External collaborators

The starknet short-string decoder, the cbor2 binary decoder and the
JSON.stringify builtin are not part of this repository; theorems
quantify over every possible behaviour of them through this record. -/

structure JSExt where
  decodeShortString : JSValue → Except String String
  decodeCbor : List Nat → Except String JSValue
  jsonStringify : (String → JSValue → JSValue) → JSValue → JSValue

/-! ## jsonReplacer (part_001, lines 4-10) -/

/-- Custom JSON.stringify replacer: a bigint value is replaced by its
exact decimal digit string, every other value passes through. -/
def jsonReplacer (_key : String) (value : JSValue) : JSValue :=
  match value with
  | .big i => .str (toString i)
  | v => v

/-! ## isCairoByteArray (part_001, lines 53-61) -/

/-- Check whether a value looks like a Cairo byte array: an object with a
`data` field holding an array, plus a `pending_word` or
`pending_word_len` field.  Non-objects fail `typeof`/`in` checks. -/
def isCairoByteArray : JSValue → Bool
  | .obj fs =>
      (match fs.lookup "data" with
       | some (.arr _) => true
       | _ => false) &&
      (fs.hasKey "pending_word" || fs.hasKey "pending_word_len")
  | _ => false

/-! ## decodeCairoByteArray (part_001, lines 66-109) and the byte
collection phase of decodeCairoByteArrayContent (lines 114-159)

Each word is converted with `BigInt(wordFelt).toString(16)`, padded to an
even number of hex digits, and parsed with `hexToBytes`; a conversion or
parse failure throws inside the `try`, which the function converts to the
`null` fallback.  The pending word only contributes if both
`pending_word` and `pending_word_len` are truthy and
`parseInt(pending_word_len) > 0`, in which case the first
`pending_word_len` bytes of its padded hex rendering are kept. -/

def wordFeltBytes (w : JSValue) : Except String (List Nat) := do
  let i ← jsBigInt w
  hexToBytes (padEven (intToHexChars i))

def cairoWordsConcat : JSList → Except String String
  | .nil => .ok ""
  | .cons w ws => do
      let bytes ← wordFeltBytes w
      let rest ← cairoWordsConcat ws
      .ok (bytesToString bytes ++ rest)

def cairoWordsBytes : JSList → Except String (List Nat)
  | .nil => .ok []
  | .cons w ws => do
      let bytes ← wordFeltBytes w
      let rest ← cairoWordsBytes ws
      .ok (bytes ++ rest)

def pendingBytesPart (pw pwl : JSValue) : Except String (List Nat) :=
  if jsTruthy pw && jsTruthy pwl then
    match parseIntJS pwl with
    | some len =>
        if 0 < len then do
          let bytes ← wordFeltBytes pw
          .ok (bytes.take len.toNat)
        else .ok []
    | none => .ok []
  else .ok []

def decodeCairoByteArray (v : JSValue) : Option String :=
  if ¬ isCairoByteArray v then none
  else
    match v with
    | .obj fs =>
        match fs.get "data" with
        | .arr ws =>
            match (do
              let words ← cairoWordsConcat ws
              let pend ← pendingBytesPart (fs.get "pending_word") (fs.get "pending_word_len")
              .ok (words ++ bytesToString pend) : Except String String) with
            | .ok s => some s
            | .error _ => none
        | _ => none
    | _ => none

/-- Byte collection phase of decodeCairoByteArrayContent (part_001,
lines 117-159): all word bytes in order, then the pending slice. -/
def collectCairoBytes (v : JSValue) : Except String (List Nat) :=
  match v with
  | .obj fs =>
      match fs.get "data" with
      | .arr ws => do
          let wb ← cairoWordsBytes ws
          let pend ← pendingBytesPart (fs.get "pending_word") (fs.get "pending_word_len")
          .ok (wb ++ pend)
      | _ => .error "data is not iterable"
  | _ => .error "cannot destructure a non-object"

/-- decodeCairoByteArrayContent (part_001, lines 114-182): collect the
bytes, try the binary container decoder on them, fall back to the UTF-8
string rendering on decode failure, and to `null` (`none`) on any error
while collecting. -/
def decodeCairoByteArrayContent (E : JSExt) (v : JSValue) : Option JSValue :=
  if ¬ isCairoByteArray v then none
  else
    match collectCairoBytes v with
    | .error _ => none
    | .ok bytes =>
        match E.decodeCbor bytes with
        | .ok d => some d
        | .error _ => some (.str (bytesToString bytes))

/-! ## decodeCborMetadata (part_001, lines 200-263) -/

/-- Anchored test of the regular expression `(0x)?[0-9a-fA-F]+` used to
recognise hex strings (the optional group backtracks, so a string of
bare hex digits starting with `0` also matches). -/
def hexTestJs (cs : List Char) : Bool :=
  (match cs with
   | '0' :: 'x' :: r => (!r.isEmpty) && r.all isHexDigit
   | _ => false)
  || ((!cs.isEmpty) && cs.all isHexDigit)

/-- Body of the `try` block of decodeCborMetadata: convert the input to
bytes (Uint8Array as is; a numeric array element-wise; a hex string via
`hexToBytes` after stripping an optional `0x`; any other string by UTF-8
encoding), then run the binary container decoder; a non-null
non-array object returns unchanged; any other type throws. -/
def decodeCborMetadataTry (E : JSExt) (value : JSValue) : Except String JSValue :=
  match value with
  | .u8 bs => E.decodeCbor bs
  | .arr xs =>
      if xs.all (fun item =>
           match item with
           | .num _ => true
           | .str s => (jsNumberOfString s.data).isSome
           | _ => false) then
        E.decodeCbor (xs.toList.map (fun item =>
           match item with
           | .num i => toUint8 i
           | .str s => toUint8 ((jsNumberOfString s.data).getD 0)
           | _ => 0))
      else .error "Invalid byte array: contains non-numeric values"
  | .str s =>
      if hexTestJs s.data then do
        let hexString := if s.data.take 2 = ['0', 'x'] then s.data.drop 2 else s.data
        let bytes ← hexToBytes hexString
        E.decodeCbor bytes
      else
        E.decodeCbor (utf8Encode s.data)
  | .obj fs => .ok (.obj fs)
  | v => .error ("Unsupported value type for CBOR decoding: " ++ jsTypeof v)

/-- decodeCborMetadata: falsy input short-circuits to `null`; otherwise
any failure inside the conversion-and-decode block is caught and
rethrown with a `CBOR decoding error: ` prelude. -/
def decodeCborMetadata (E : JSExt) (value : JSValue) : Except String JSValue :=
  if ¬ jsTruthy value then .ok .null
  else
    match decodeCborMetadataTry E value with
    | .ok r => .ok r
    | .error m => .error ("CBOR decoding error: " ++ m)

/-! ## byteArrayToString (part_001, lines 12-48) -/

/-- Rendering of a successful decodeCborMetadata result (part_001,
lines 33-35): strings pass through, everything else goes through
JSON.stringify with the bigint-aware replacer. -/
def renderDecoded (E : JSExt) (dv : JSValue) : JSValue :=
  match dv with
  | .str s => .str s
  | dv => E.jsonStringify jsonReplacer dv

/-- byteArrayToString: falsy input gives `""`; a string returns itself;
an object returns its `toString()` (every model object has `toString` on
its prototype chain); otherwise the short-string decoder is tried, then
decodeCborMetadata with the Cairo-byte-array check on its result, and as
a last resort the Cairo check on the original value or `String(value)`.
Every internal failure is caught, so the function never throws. -/
def byteArrayToString (E : JSExt) (value : JSValue) : Except String JSValue :=
  if ¬ jsTruthy value then .ok (.str "")
  else match value with
  | .str s => .ok (.str s)
  | v =>
    if jsTypeof v = "object" then .ok (.str (jsToString v))
    else
      match E.decodeShortString v with
      | .ok s => .ok (.str s)
      | .error _ =>
          match decodeCborMetadata E v with
          | .ok decodedValue =>
              if isCairoByteArray decodedValue then
                match decodeCairoByteArrayContent E decodedValue with
                | some cairoString =>
                    if jsTruthy cairoString then .ok cairoString
                    else .ok (renderDecoded E decodedValue)
                | none => .ok (renderDecoded E decodedValue)
              else .ok (renderDecoded E decodedValue)
          | .error _ =>
              if jsTypeof v = "object" && isCairoByteArray v then
                match decodeCairoByteArrayContent E v with
                | some cairoString =>
                    if jsTruthy cairoString then .ok cairoString
                    else .ok (.str (jsToString v))
                | none => .ok (.str (jsToString v))
              else .ok (.str (jsToString v))

/-! ## stringToUint8Array (src/src/services/contractService.ts, lines 31-37)

JS strings are sequences of UTF-16 code units; `charCodeAt(i)` reads the
i-th code unit and writing it into a `Uint8Array` slot wraps it modulo
256.  The source allocates a zero array of the string's length and fills
it with an index loop, modelled by a fold over the index range. -/

def stringToUint8Array (s : List Nat) : List Nat :=
  (List.range s.length).foldl
    (fun arr i => arr.set i ((s.getD i 0) % 256))
    (List.replicate s.length 0)

/-! ## A structured binary container decoder instance

Modelled from the spec: the StructuredDecoder of section 4.2 — the
self-describing binary container format (the cbor2 library's `decode`,
which is a dependency, not part of src/) — parses integers, byte strings,
text strings, arrays, maps, tags and the simple values, with definite
lengths only; truncated input, reserved or indefinite type information
and trailing bytes are decode failures, not crashes.  It is used as a
concrete instance of the `decodeCbor` oracle in witnesses and
counterexamples; the theorems about repository code quantify over all
oracles wherever possible. -/

def JSFields.ofPairs : List (String × JSValue) → JSFields
  | [] => .nil
  | (k, v) :: rest => .cons k v (JSFields.ofPairs rest)

inductive CborFrame where
  | arrF (need : Nat) (acc : List JSValue)
  | mapF (need : Nat) (acc : List (String × JSValue)) (key : Option JSValue)
  | tagF

/-- Feed a completed item into the innermost open container, closing
containers (and unwrapping tags) as they fill up. -/
def cborFeed : JSValue → List CborFrame → Sum (List CborFrame) JSValue
  | v, [] => .inr v
  | v, .arrF need acc :: st =>
      if need ≤ 1 then cborFeed (.arr (JSList.ofList (acc ++ [v]))) st
      else .inl (.arrF (need - 1) (acc ++ [v]) :: st)
  | v, .mapF need acc none :: st => .inl (.mapF need acc (some v) :: st)
  | v, .mapF need acc (some k) :: st =>
      if need ≤ 1 then cborFeed (.obj (JSFields.ofPairs (acc ++ [(jsToString k, v)]))) st
      else .inl (.mapF (need - 1) (acc ++ [(jsToString k, v)]) none :: st)
  | v, .tagF :: st => cborFeed v st

/-- Read `k` bytes big-endian. -/
def readBEAux : Nat → Nat → List Nat → Option (Nat × List Nat)
  | 0, acc, bs => some (acc, bs)
  | k + 1, acc, bs =>
      match bs with
      | [] => none
      | b :: r => readBEAux k (acc * 256 + b) r

/-- Parse an initial byte and its argument: major type, argument value,
remaining bytes. -/
def cborHead (bs : List Nat) : Except String (Nat × Nat × List Nat) :=
  match bs with
  | [] => .error "unexpected end of input"
  | b :: r =>
      let mt := b / 32
      let ai := b % 32
      if ai < 24 then .ok (mt, ai, r)
      else if ai ≤ 27 then
        match readBEAux (2 ^ (ai - 24)) 0 r with
        | some (n, r2) => .ok (mt, n, r2)
        | none => .error "truncated argument"
      else .error "invalid additional information"

def cborLoop : Nat → List CborFrame → List Nat → Except String JSValue
  | 0, _, _ => .error "decoder fuel exhausted"
  | fuel + 1, st, bs =>
      match cborHead bs with
      | .error e => .error e
      | .ok (mt, n, r) =>
          let step : JSValue → List Nat → Except String JSValue := fun v rest =>
            match cborFeed v st with
            | .inr out => if rest.isEmpty then .ok out else .error "trailing data"
            | .inl st2 => cborLoop fuel st2 rest
          if mt = 0 then step (.num (n : Int)) r
          else if mt = 1 then step (.num (-1 - (n : Int))) r
          else if mt = 2 then
            if r.length < n then .error "truncated byte string"
            else step (.u8 (r.take n)) (r.drop n)
          else if mt = 3 then
            if r.length < n then .error "truncated text string"
            else step (.str (bytesToString (r.take n))) (r.drop n)
          else if mt = 4 then
            if n = 0 then step (.arr .nil) r
            else cborLoop fuel (.arrF n [] :: st) r
          else if mt = 5 then
            if n = 0 then step (.obj .nil) r
            else cborLoop fuel (.mapF n [] none :: st) r
          else if mt = 6 then cborLoop fuel (.tagF :: st) r
          else
            if n = 20 then step (.bool false) r
            else if n = 21 then step (.bool true) r
            else if n = 22 then step .null r
            else if n = 23 then step .undefined r
            else .error "unsupported simple or float value"

/-- Modelled from the spec: strict decode of one complete container item
(section 4.2); every step of the loop consumes at least one byte, so the
input length bounds the fuel. -/
def cborDecodeModel (bs : List Nat) : Except String JSValue :=
  cborLoop (bs.length + 1) [] bs

/-- A concrete oracle instance: the starknet short-string decoder always
throwing (its behaviour is irrelevant to every witness that uses this
instance), the modelled container decoder, and a stand-in stringifier. -/
def modelJSExt : JSExt :=
  { decodeShortString := fun _ => .error "Invalid short string"
    decodeCbor := cborDecodeModel
    jsonStringify := fun _ v => .str (jsToString v) }

/-- Convenience constructor for a chain byte-array record. -/
def mkByteArrayRec (ws : List JSValue) (pw pwl : JSValue) : JSValue :=
  .obj (.cons "data" (.arr (JSList.ofList ws))
    (.cons "pending_word" pw (.cons "pending_word_len" pwl .nil)))

/-! ## Helper lemmas -/

theorem jsTruthy_obj (fs : JSFields) : jsTruthy (.obj fs) = true := rfl

theorem match_arr_true_iff (o : Option JSValue) :
    (match o with | some (.arr _) => true | _ => false) = true ↔ ∃ xs, o = some (.arr xs) := by
  cases o with
  | none => simp
  | some v => cases v <;> simp

/-- Spec-side shape predicate for claim C7, written from the spec's
words: a non-null mapping with a `data` field holding a sequence and a
`pending_word` or `pending_word_len` field. -/
def isCairoByteArrayShape (v : JSValue) : Prop :=
  ∃ fs, v = .obj fs ∧ (∃ xs, fs.lookup "data" = some (.arr xs)) ∧
    (fs.hasKey "pending_word" = true ∨ fs.hasKey "pending_word_len" = true)

/-- C7: for every value v, isCairoByteArray v is true exactly when v is a
non-null mapping whose `data` field is a sequence and which carries a
`pending_word` or `pending_word_len` field. -/
theorem c7_detection_iff (v : JSValue) : isCairoByteArray v = true ↔ isCairoByteArrayShape v := by
  cases v with
  | obj fs =>
      simp only [isCairoByteArray, Bool.and_eq_true, Bool.or_eq_true, match_arr_true_iff,
        isCairoByteArrayShape]
      constructor
      · rintro ⟨⟨xs, hx⟩, h2⟩
        exact ⟨fs, rfl, ⟨xs, hx⟩, h2⟩
      · rintro ⟨fs2, heq, ⟨xs, hx⟩, h2⟩
        cases heq
        exact ⟨⟨xs, hx⟩, h2⟩
  | null => simp [isCairoByteArray, isCairoByteArrayShape]
  | undefined => simp [isCairoByteArray, isCairoByteArrayShape]
  | bool b => simp [isCairoByteArray, isCairoByteArrayShape]
  | num i => simp [isCairoByteArray, isCairoByteArrayShape]
  | big i => simp [isCairoByteArray, isCairoByteArrayShape]
  | str s => simp [isCairoByteArray, isCairoByteArrayShape]
  | arr xs => simp [isCairoByteArray, isCairoByteArrayShape]
  | u8 bs => simp [isCairoByteArray, isCairoByteArrayShape]

/-- C8: the JSON replacer renders the 64-bit-overflowing bigint
12345678901234567890 as its exact decimal digit string, and renders
every bigint as some string (never as a number). -/
theorem c8_bigint_decimal :
    (∀ k, jsonReplacer k (.big 12345678901234567890) = .str "12345678901234567890") ∧
    (∀ k (i : Int), ∃ s, jsonReplacer k (.big i) = .str s) :=
  ⟨fun _ => rfl, fun _ i => ⟨toString i, rfl⟩⟩

/-- C6 (amended): every non-null plain mapping — whether or not it is
byte-array shaped — is returned unchanged by decodeCborMetadata. -/
theorem c6_mapping_unchanged (E : JSExt) (fs : JSFields) :
    decodeCborMetadata E (.obj fs) = .ok (.obj fs) := rfl

/-- C6 counterexample: a sequence that is not byte-array shaped is NOT
returned unchanged: a non-numeric array raises a wrapped error, and a
numeric array is reinterpreted as bytes and container-decoded. -/
theorem c6_sequence_counterexample :
    decodeCborMetadata modelJSExt (.arr (.cons (.str "x") .nil))
      = .error "CBOR decoding error: Invalid byte array: contains non-numeric values" ∧
    decodeCborMetadata modelJSExt (.arr (.cons (.num 1) .nil)) = .ok (.num 1) ∧
    decodeCborMetadata modelJSExt (.arr (.cons (.num 1) .nil)) ≠ .ok (.arr (.cons (.num 1) .nil)) := by
  refine ⟨rfl, rfl, ?_⟩
  intro h
  rw [show decodeCborMetadata modelJSExt (.arr (.cons (.num 1) .nil)) = .ok (.num 1) from rfl] at h
  injection h with h2
  exact JSValue.noConfusion h2

/-- C9: every truthy object input — in particular every chain byte-array
record — is returned by byteArrayToString as its `toString()` rendering
immediately, for every behaviour of the short-string and container
decoders, so the decoding branches below are unreachable for objects. -/
theorem c9_object_tostring (E : JSExt) (v : JSValue)
    (h1 : jsTypeof v = "object") (h2 : jsTruthy v = true) :
    byteArrayToString E v = .ok (.str (jsToString v)) := by
  cases v <;> simp_all [jsTypeof, jsTruthy, byteArrayToString]

/-- C9 witness: a concrete chain byte-array record stringifies to
"[object Object]" instead of being decoded. -/
theorem c9_object_tostring_witness :
    byteArrayToString modelJSExt (mkByteArrayRec [.big 1] (.big 0) (.num 0))
      = .ok (.str (jsToString (mkByteArrayRec [.big 1] (.big 0) (.num 0)))) :=
  c9_object_tostring modelJSExt (mkByteArrayRec [.big 1] (.big 0) (.num 0)) rfl rfl

/-- C1: the public entry point byteArrayToString returns an `ok` value on
every input and for every behaviour of the external decoders — every
internal failure is converted to a fallback — and a null input
short-circuits: byteArrayToString gives the empty string and
decodeCborMetadata gives null. -/
theorem c1_entry_point_no_throw (E : JSExt) (v : JSValue) :
    (∃ r, byteArrayToString E v = .ok r) ∧
    byteArrayToString E .null = .ok (.str "") ∧
    decodeCborMetadata E .null = .ok .null := by
  refine ⟨?_, rfl, rfl⟩
  unfold byteArrayToString
  repeat' split
  all_goals exact ⟨_, rfl⟩

/-- C3 (amended): on the hex string "0x68656c6c6f" decodeCborMetadata
strips the `0x`, converts the hex to the bytes of "hello", and attempts
the container decoder; when that decoder fails, the failure is rethrown
wrapped as a CBOR decoding error rather than being converted to the
UTF-8 text, while the enclosing byteArrayToString returns any string
input unchanged before ever reaching the hex path. -/
theorem c3_hex_path_rethrow (E : JSExt) (m : String)
    (h : E.decodeCbor [104, 101, 108, 108, 111] = .error m) :
    decodeCborMetadata E (.str "0x68656c6c6f") = .error ("CBOR decoding error: " ++ m) ∧
    byteArrayToString E (.str "0x68656c6c6f") = .ok (.str "0x68656c6c6f") := by
  constructor
  · have h1 : decodeCborMetadata E (.str "0x68656c6c6f") =
        (match E.decodeCbor [104, 101, 108, 108, 111] with
         | .ok r => .ok r
         | .error m2 => .error ("CBOR decoding error: " ++ m2)) := rfl
    rw [h1, h]
  · rfl

/-- C3 witness: the modelled container decoder indeed fails on the bytes
of "hello" (a truncated text string header), and the rethrow happens. -/
theorem c3_hex_path_rethrow_witness :
    modelJSExt.decodeCbor [104, 101, 108, 108, 111] = .error "truncated text string" ∧
    decodeCborMetadata modelJSExt (.str "0x68656c6c6f")
      = .error ("CBOR decoding error: " ++ "truncated text string") ∧
    byteArrayToString modelJSExt (.str "0x68656c6c6f") = .ok (.str "0x68656c6c6f") :=
  ⟨rfl, (c3_hex_path_rethrow modelJSExt "truncated text string" rfl).1,
    (c3_hex_path_rethrow modelJSExt "truncated text string" rfl).2⟩

/-- C3 counterexample: decoding the string "0x68656c6c6f" does not fall
back to the text "hello" anywhere: the entry point returns the string
unchanged and decodeCborMetadata rethrows the container failure. -/
theorem c3_hex_fallback_counterexample :
    byteArrayToString modelJSExt (.str "0x68656c6c6f") = .ok (.str "0x68656c6c6f") ∧
    byteArrayToString modelJSExt (.str "0x68656c6c6f") ≠ .ok (.str "hello") ∧
    decodeCborMetadata modelJSExt (.str "0x68656c6c6f")
      = .error "CBOR decoding error: truncated text string" := by
  refine ⟨rfl, ?_, rfl⟩
  intro h
  rw [show byteArrayToString modelJSExt (.str "0x68656c6c6f") = .ok (.str "0x68656c6c6f") from rfl] at h
  injection h with h2
  injection h2 with h3
  exact absurd h3 (by decide)

/-! ## Claim C10: stringToUint8Array -/

theorem set_append_left_len {α : Type} (l1 l2 : List α) (v : α) :
    (l1 ++ l2).set l1.length v = l1 ++ l2.set 0 v := by
  induction l1 with
  | nil => rfl
  | cons a t ih => simp [List.set, ih]

theorem fold_set_range (g : Nat → Nat) (n : Nat) :
    ∀ m, m ≤ n →
      (List.range m).foldl (fun arr i => arr.set i (g i)) (List.replicate n 0) =
        (List.range m).map g ++ List.replicate (n - m) 0 := by
  intro m
  induction m with
  | zero => simp
  | succ k ih =>
      intro h
      rw [List.range_succ, List.foldl_append, ih (Nat.le_of_succ_le h), List.map_append]
      have hk : ((List.range k).map g).length = k := by simp
      have hrep : List.replicate (n - k) (0 : Nat) = 0 :: List.replicate (n - (k + 1)) 0 := by
        have : n - k = (n - (k + 1)) + 1 := by omega
        rw [this, List.replicate_succ]
      calc ((List.range k).map g ++ List.replicate (n - k) 0).set k (g k)
          = (List.range k).map g ++ (List.replicate (n - k) 0).set 0 (g k) := by
            have h2 := set_append_left_len ((List.range k).map g) (List.replicate (n - k) 0) (g k)
            rw [hk] at h2
            exact h2
        _ = (List.range k).map g ++ ([g k] ++ List.replicate (n - (k + 1)) 0) := by
            rw [hrep]; rfl
        _ = (List.range k).map g ++ [g k] ++ List.replicate (n - (k + 1)) 0 := by
            rw [List.append_assoc]

theorem stringToUint8Array_eq_map (s : List Nat) :
    stringToUint8Array s = (List.range s.length).map (fun i => (s.getD i 0) % 256) := by
  have h := fold_set_range (fun i => (s.getD i 0) % 256) s.length s.length le_rfl
  simpa [stringToUint8Array] using h

/-- C10: stringToUint8Array returns a byte array of exactly the string's
length (in UTF-16 code units) whose i-th element is the i-th code unit
reduced modulo 256; code units above 255 are silently truncated to their
low 8 bits. -/
theorem c10_string_to_bytes (s : List Nat) :
    (stringToUint8Array s).length = s.length ∧
    ∀ i, i < s.length → (stringToUint8Array s).getD i 0 = (s.getD i 0) % 256 := by
  rw [stringToUint8Array_eq_map]
  constructor
  · simp
  · intro i hi
    rw [List.getD_eq_getElem?_getD, List.getElem?_map, List.getElem?_range hi]
    rfl

/-- C10 witness: the string "H☃" has code units 72 and 9731; the second
is truncated to 9731 mod 256 = 3. -/
theorem c10_string_to_bytes_witness :
    (stringToUint8Array [72, 9731]).length = 2 ∧ 1 < 2 ∧
    (stringToUint8Array [72, 9731]).getD 1 0 = 9731 % 256 :=
  ⟨(c10_string_to_bytes [72, 9731]).1, by decide,
    (c10_string_to_bytes [72, 9731]).2 1 (by decide)⟩

/-! ## Claim C5: malformed words -/

theorem isCairoByteArray_mkRec (ws : List JSValue) (pw pwl : JSValue) :
    isCairoByteArray (mkByteArrayRec ws pw pwl) = true := rfl

theorem wordFeltBytes_str_error (s : String) (h : bigIntOfString s.data = none) :
    wordFeltBytes (.str s) = .error "Cannot convert string to a BigInt" := by
  simp [wordFeltBytes, jsBigInt, h, Bind.bind, Except.bind]

theorem cairoWordsBytes_append_str_error (ws1 ws2 : List JSValue) (s : String)
    (h : bigIntOfString s.data = none) :
    ∃ m, cairoWordsBytes (JSList.ofList (ws1 ++ .str s :: ws2)) = .error m := by
  induction ws1 with
  | nil =>
      refine ⟨"Cannot convert string to a BigInt", ?_⟩
      simp [JSList.ofList, cairoWordsBytes, wordFeltBytes_str_error s h, Bind.bind, Except.bind]
  | cons w t ih =>
      obtain ⟨m, hm⟩ := ih
      cases hw : wordFeltBytes w with
      | error e => exact ⟨e, by simp [JSList.ofList, cairoWordsBytes, hw, Bind.bind, Except.bind]⟩
      | ok bs => exact ⟨m, by simp [JSList.ofList, cairoWordsBytes, hw, hm, Bind.bind, Except.bind]⟩

theorem cairoWordsConcat_append_str_error (ws1 ws2 : List JSValue) (s : String)
    (h : bigIntOfString s.data = none) :
    ∃ m, cairoWordsConcat (JSList.ofList (ws1 ++ .str s :: ws2)) = .error m := by
  induction ws1 with
  | nil =>
      refine ⟨"Cannot convert string to a BigInt", ?_⟩
      simp [JSList.ofList, cairoWordsConcat, wordFeltBytes_str_error s h, Bind.bind, Except.bind]
  | cons w t ih =>
      obtain ⟨m, hm⟩ := ih
      cases hw : wordFeltBytes w with
      | error e => exact ⟨e, by simp [JSList.ofList, cairoWordsConcat, hw, Bind.bind, Except.bind]⟩
      | ok bs => exact ⟨m, by simp [JSList.ofList, cairoWordsConcat, hw, hm, Bind.bind, Except.bind]⟩

/-- C5 (amended): a word that is not convertible to a bigint (a
non-numeric string, the model of a non-integer word) aborts the word
reassembly locally, and both decodeCairoByteArray and
decodeCairoByteArrayContent return the null fallback.  (A negative
integer word, by contrast, does not abort — see the counterexample.) -/
theorem c5_malformed_word_aborts (E : JSExt) (ws1 ws2 : List JSValue) (s : String)
    (pw pwl : JSValue) (h : bigIntOfString s.data = none) :
    decodeCairoByteArray (mkByteArrayRec (ws1 ++ .str s :: ws2) pw pwl) = none ∧
    decodeCairoByteArrayContent E (mkByteArrayRec (ws1 ++ .str s :: ws2) pw pwl) = none := by
  obtain ⟨m1, hm1⟩ := cairoWordsConcat_append_str_error ws1 ws2 s h
  obtain ⟨m2, hm2⟩ := cairoWordsBytes_append_str_error ws1 ws2 s h
  constructor
  · simp [decodeCairoByteArray, mkByteArrayRec, isCairoByteArray, JSFields.lookup,
      JSFields.hasKey, JSFields.get, JSList.ofList, hm1, Bind.bind, Except.bind]
  · simp [decodeCairoByteArrayContent, collectCairoBytes, mkByteArrayRec, isCairoByteArray,
      JSFields.lookup, JSFields.hasKey, JSFields.get, JSList.ofList, hm2, Bind.bind, Except.bind]

/-- C5 witness: a record whose single word is the garbage string
"hello!" decodes to the null fallback in both functions. -/
theorem c5_malformed_word_aborts_witness :
    bigIntOfString "hello!".data = none ∧
    decodeCairoByteArray (mkByteArrayRec [.str "hello!"] (.big 0) (.num 0)) = none ∧
    decodeCairoByteArrayContent modelJSExt (mkByteArrayRec [.str "hello!"] (.big 0) (.num 0)) = none :=
  ⟨by decide,
    (c5_malformed_word_aborts modelJSExt [] [] "hello!" (.big 0) (.num 0) (by decide)).1,
    (c5_malformed_word_aborts modelJSExt [] [] "hello!" (.big 0) (.num 0) (by decide)).2⟩

/-- C5 counterexample: a record containing the negative word -5 does NOT
abort: `(-5n).toString(16)` is "-5", `parseInt("-5", 16)` is -5 (not
NaN), the Uint8Array store wraps it to 251, and both functions return a
non-null (garbage) result instead of the claimed null fallback. -/
theorem c5_negative_word_counterexample :
    (decodeCairoByteArray (mkByteArrayRec [.num (-5)] (.big 0) (.num 0))).isSome = true ∧
    (decodeCairoByteArrayContent modelJSExt (mkByteArrayRec [.num (-5)] (.big 0) (.num 0))).isSome
      = true ∧
    wordFeltBytes (.num (-5)) = .ok [251] := by
  refine ⟨rfl, rfl, rfl⟩

/-! ## Digit-count lemmas for claims C2 and C4 -/

theorem hexDigitsRevAux_zero (f : Nat) : hexDigitsRevAux f 0 = [] := by
  cases f <;> simp [hexDigitsRevAux]

theorem hexDigitsRevAux_len_le :
    ∀ (k f n : Nat), n < 16 ^ k → k ≤ f → (hexDigitsRevAux f n).length ≤ k := by
  intro k
  induction k with
  | zero =>
      intro f n h1 _
      have hn : n = 0 := by simpa using h1
      subst hn
      rw [hexDigitsRevAux_zero]
      exact Nat.le_refl 0
  | succ k ih =>
      intro f n h1 h2
      obtain ⟨f2, rfl⟩ : ∃ f2, f = f2 + 1 := ⟨f - 1, by omega⟩
      by_cases hn : n = 0
      · subst hn; rw [hexDigitsRevAux_zero]; exact Nat.zero_le _
      · simp only [hexDigitsRevAux, if_neg hn, List.length_cons]
        have hdiv : n / 16 < 16 ^ k := by
          rw [Nat.div_lt_iff_lt_mul (by norm_num)]
          calc n < 16 ^ (k + 1) := h1
            _ = 16 ^ k * 16 := by ring
        have := ih f2 (n / 16) hdiv (by omega)
        omega

theorem hexDigitsRevAux_len_ge :
    ∀ (k f n : Nat), 16 ^ k ≤ n → n < 16 ^ f → k + 1 ≤ (hexDigitsRevAux f n).length := by
  intro k
  induction k with
  | zero =>
      intro f n h1 h2
      have hn : n ≠ 0 := by simp at h1; omega
      have hf : f ≠ 0 := by
        intro h
        subst h
        simp at h2
        omega
      obtain ⟨f2, rfl⟩ : ∃ f2, f = f2 + 1 := ⟨f - 1, by omega⟩
      simp [hexDigitsRevAux, hn]
  | succ k ih =>
      intro f n h1 h2
      have hn : n ≠ 0 := by
        have : (1 : Nat) ≤ 16 ^ (k + 1) := Nat.one_le_pow _ _ (by norm_num)
        omega
      have hflt : k + 1 < f := by
        have hp : (16 : Nat) ^ (k + 1) < 16 ^ f := Nat.lt_of_le_of_lt h1 h2
        exact (Nat.pow_lt_pow_iff_right (by norm_num)).mp hp
      obtain ⟨f2, rfl⟩ : ∃ f2, f = f2 + 1 := ⟨f - 1, by omega⟩
      simp only [hexDigitsRevAux, if_neg hn, List.length_cons]
      have h1a : 16 ^ k ≤ n / 16 := by
        rw [Nat.le_div_iff_mul_le (by norm_num)]
        calc 16 ^ k * 16 = 16 ^ (k + 1) := by ring
          _ ≤ n := h1
      have h2a : n / 16 < 16 ^ f2 := by
        rw [Nat.div_lt_iff_lt_mul (by norm_num)]
        calc n < 16 ^ (f2 + 1) := h2
          _ = 16 ^ f2 * 16 := by ring
      have := ih f2 (n / 16) h1a h2a
      omega

theorem hexDigitsRevAux_lt16 : ∀ (f n d : Nat), d ∈ hexDigitsRevAux f n → d < 16 := by
  intro f
  induction f with
  | zero => intro n d hd; simp [hexDigitsRevAux] at hd
  | succ f ih =>
      intro n d hd
      by_cases hn : n = 0
      · subst hn; simp [hexDigitsRevAux] at hd
      · simp only [hexDigitsRevAux, if_neg hn, List.mem_cons] at hd
        rcases hd with h | h
        · subst h; exact Nat.mod_lt _ (by norm_num)
        · exact ih _ _ h

theorem hexDigitChar_isHexDigit : ∀ d, d < 16 → isHexDigit (hexDigitChar d) = true := by decide

theorem natToHexChars_all_hex (n : Nat) : ∀ c ∈ natToHexChars n, isHexDigit c = true := by
  intro c hc
  unfold natToHexChars at hc
  split at hc
  · simp at hc; subst hc; decide
  · simp only [List.mem_reverse, List.mem_map] at hc
    obtain ⟨d, hd, rfl⟩ := hc
    exact hexDigitChar_isHexDigit d (hexDigitsRevAux_lt16 _ _ _ hd)

theorem natToHexChars_length_eq (n : Nat) (hn : n ≠ 0) :
    (natToHexChars n).length = (hexDigitsRevAux n n).length := by
  simp [natToHexChars, hn, hexDigitsRev]

theorem natToHexChars_length_ge (n k : Nat) (h : 16 ^ k ≤ n) :
    k + 1 ≤ (natToHexChars n).length := by
  have h1 : (1 : Nat) ≤ 16 ^ k := Nat.one_le_pow _ _ (by norm_num)
  have hn : n ≠ 0 := by omega
  rw [natToHexChars_length_eq n hn]
  exact hexDigitsRevAux_len_ge k n n h (Nat.lt_pow_self (by norm_num) n)

theorem natToHexChars_length_le (n k : Nat) (hn : n ≠ 0) (h : n < 16 ^ k) (hkn : k ≤ n) :
    (natToHexChars n).length ≤ k := by
  rw [natToHexChars_length_eq n hn]
  exact hexDigitsRevAux_len_le k n n h hkn

theorem padEven_all_hex (cs : List Char) (h : ∀ c ∈ cs, isHexDigit c = true) :
    ∀ c ∈ padEven cs, isHexDigit c = true := by
  intro c hc
  unfold padEven at hc
  split at hc
  · rcases List.mem_cons.mp hc with rfl | h2
    · decide
    · exact h c h2
  · exact h c hc

theorem padEven_length (cs : List Char) : (padEven cs).length = 2 * ((cs.length + 1) / 2) := by
  unfold padEven
  split
  · simp only [List.length_cons]
    omega
  · omega

theorem hexPairsToBytes_ok :
    ∀ cs : List Char, (∀ c ∈ cs, isHexDigit c = true) →
      ∃ bs, hexPairsToBytes cs = .ok bs ∧ bs.length = (cs.length + 1) / 2
  | [], _ => ⟨[], rfl, rfl⟩
  | [c], h => by
      have hc : (hexVal c).isSome = true := h c (by simp)
      obtain ⟨d, hd⟩ := Option.isSome_iff_exists.mp hc
      exact ⟨[toUint8 ((d : Nat) : Int)], by simp [hexPairsToBytes, hd], by simp⟩
  | a :: b :: rest, h => by
      obtain ⟨bs, hbs, hlen⟩ := hexPairsToBytes_ok rest (fun c hc => h c (by simp [hc]))
      have ha : (hexVal a).isSome = true := h a (by simp)
      have hb : (hexVal b).isSome = true := h b (by simp)
      obtain ⟨da, hda⟩ := Option.isSome_iff_exists.mp ha
      obtain ⟨db, hdb⟩ := Option.isSome_iff_exists.mp hb
      refine ⟨toUint8 ((16 * da + db : Nat) : Int) :: bs, ?_, ?_⟩
      · simp [hexPairsToBytes, parseIntHexPair, hda, hdb, hbs, Bind.bind, Except.bind]
      · simp only [List.length_cons, hlen]
        omega

theorem hexToBytes_hex_ok (cs : List Char) (h : ∀ c ∈ cs, isHexDigit c = true) :
    ∃ bs, hexToBytes cs = .ok bs ∧ bs.length = (cs.length + 1) / 2 := by
  obtain ⟨bs, h1, h2⟩ := hexPairsToBytes_ok (padEven cs) (padEven_all_hex cs h)
  refine ⟨bs, h1, ?_⟩
  rw [h2, padEven_length]
  omega

theorem intToHexChars_ofNat (w : Nat) : intToHexChars ((w : Nat) : Int) = natToHexChars w := by
  simp [intToHexChars]

theorem wordFeltBytes_big_nat (w : Nat) :
    wordFeltBytes (.big ((w : Nat) : Int)) = hexToBytes (padEven (natToHexChars w)) := by
  simp [wordFeltBytes, jsBigInt, Bind.bind, Except.bind, intToHexChars_ofNat]

theorem wordFeltBytes_nat_ok (w : Nat) :
    ∃ bs, wordFeltBytes (.big ((w : Nat) : Int)) = .ok bs ∧
      bs.length = ((natToHexChars w).length + 1) / 2 := by
  rw [wordFeltBytes_big_nat]
  obtain ⟨bs, h1, h2⟩ :=
    hexToBytes_hex_ok (padEven (natToHexChars w)) (padEven_all_hex _ (natToHexChars_all_hex w))
  refine ⟨bs, ?_, ?_⟩
  · simpa [hexToBytes] using h1
  · rw [h2, padEven_length]
    omega

/-! ## Pending-word and whole-record lemmas -/

theorem parseIntJS_num_small :
    ∀ n : Nat, n ≤ 30 → parseIntJS (.num ((n : Nat) : Int)) = some ((n : Nat) : Int) := by decide

theorem collectCairoBytes_mkRec (ws : List JSValue) (pw pwl : JSValue) :
    collectCairoBytes (mkByteArrayRec ws pw pwl) =
      (do
        let wb ← cairoWordsBytes (JSList.ofList ws)
        let pend ← pendingBytesPart pw pwl
        .ok (wb ++ pend) : Except String (List Nat)) := rfl

theorem pendingBytesPart_take (pw pwl : Nat) (hpw : 0 < pw) (hpwl1 : 0 < pwl)
    (hpwl2 : pwl ≤ 30) :
    ∃ pb, hexToBytes (padEven (natToHexChars pw)) = .ok pb ∧
      pb.length = ((natToHexChars pw).length + 1) / 2 ∧
      pendingBytesPart (.big ((pw : Nat) : Int)) (.num ((pwl : Nat) : Int)) = .ok (pb.take pwl) := by
  obtain ⟨pb, h1, h2⟩ := wordFeltBytes_nat_ok pw
  rw [wordFeltBytes_big_nat] at h1
  refine ⟨pb, h1, h2, ?_⟩
  have htr1 : jsTruthy (.big ((pw : Nat) : Int)) = true := by
    simp only [jsTruthy, bne_iff_ne, ne_eq, Nat.cast_eq_zero]
    omega
  have htr2 : jsTruthy (.num ((pwl : Nat) : Int)) = true := by
    simp only [jsTruthy, bne_iff_ne, ne_eq, Nat.cast_eq_zero]
    omega
  have hp := parseIntJS_num_small pwl hpwl2
  have hpos : (0 : Int) < ((pwl : Nat) : Int) := by exact_mod_cast hpwl1
  simp only [pendingBytesPart, htr1, htr2, Bool.and_self, if_pos, hp, if_pos hpos,
    wordFeltBytes_big_nat, h1, Bind.bind, Except.bind, Int.toNat_natCast]

theorem cairoWordsBytes_nat_ok :
    ∀ ws : List Nat,
      ∃ bs, cairoWordsBytes (JSList.ofList (ws.map (fun w => .big ((w : Nat) : Int)))) = .ok bs
  | [] => ⟨[], rfl⟩
  | w :: t => by
      obtain ⟨bs1, h1, _⟩ := wordFeltBytes_nat_ok w
      obtain ⟨bs2, h2⟩ := cairoWordsBytes_nat_ok t
      exact ⟨bs1 ++ bs2, by simp [JSList.ofList, cairoWordsBytes, h1, h2, Bind.bind, Except.bind]⟩

theorem wordFeltBytes_range31 (w : Nat) (h1 : 2 ^ 240 ≤ w) (h2 : w < 2 ^ 248) :
    ∃ bs, wordFeltBytes (.big ((w : Nat) : Int)) = .ok bs ∧ bs.length = 31 := by
  obtain ⟨bs, hb, hl⟩ := wordFeltBytes_nat_ok w
  refine ⟨bs, hb, ?_⟩
  have hge : 60 + 1 ≤ (natToHexChars w).length := by
    refine natToHexChars_length_ge w 60 ?_
    calc (16 : Nat) ^ 60 = 2 ^ 240 := by norm_num
      _ ≤ w := h1
  have hle : (natToHexChars w).length ≤ 62 := by
    have hw0 : w ≠ 0 := by
      have : (0 : Nat) < 2 ^ 240 := by positivity
      omega
    refine natToHexChars_length_le w 62 hw0 ?_ ?_
    · calc w < 2 ^ 248 := h2
        _ = 16 ^ 62 := by norm_num
    · calc (62 : Nat) ≤ 2 ^ 240 := by norm_num
        _ ≤ w := h1
  omega

theorem cairoWordsBytes_len31 :
    ∀ ws : List Nat, (∀ w ∈ ws, 2 ^ 240 ≤ w ∧ w < 2 ^ 248) →
      ∃ bs, cairoWordsBytes (JSList.ofList (ws.map (fun w => .big ((w : Nat) : Int)))) = .ok bs ∧
        bs.length = 31 * ws.length
  | [], _ => ⟨[], rfl, rfl⟩
  | w :: t, h => by
      obtain ⟨bs1, h1, hl1⟩ := wordFeltBytes_range31 w (h w (by simp)).1 (h w (by simp)).2
      obtain ⟨bs2, h2, hl2⟩ := cairoWordsBytes_len31 t (fun x hx => h x (by simp [hx]))
      refine ⟨bs1 ++ bs2, ?_, ?_⟩
      · simp [JSList.ofList, cairoWordsBytes, h1, h2, Bind.bind, Except.bind]
      · simp only [List.length_append, List.length_cons, hl1, hl2]
        ring

/-- C2 (amended): for a record whose data words all have a non-zero
leading byte (2^240 ≤ w < 2^248, so their hex renderings pad to exactly
31 bytes), whose pending_word_len lies in [0,30], and whose pending_word
has a non-zero leading byte among its declared pending_word_len bytes
(2^(8*(pending_word_len-1)) ≤ pending_word when pending_word_len > 0),
the byte-collection phase of decodeCairoByteArrayContent yields exactly
31*len(data)+pending_word_len bytes.  Words with leading zero bytes, a
zero pending_word (falsy, skipped) or a short pending_word yield fewer
bytes — see the counterexample. -/
theorem c2_reassembly_length (ws : List Nat) (pw pwl : Nat)
    (hws : ∀ w ∈ ws, 2 ^ 240 ≤ w ∧ w < 2 ^ 248)
    (hpwl : pwl ≤ 30)
    (hpw : 0 < pwl → 2 ^ (8 * (pwl - 1)) ≤ pw) :
    ∃ bs,
      collectCairoBytes (mkByteArrayRec (ws.map (fun w => .big ((w : Nat) : Int)))
        (.big ((pw : Nat) : Int)) (.num ((pwl : Nat) : Int))) = .ok bs ∧
      bs.length = 31 * ws.length + pwl := by
  obtain ⟨wb, hwb, hwbl⟩ := cairoWordsBytes_len31 ws hws
  rw [collectCairoBytes_mkRec]
  by_cases hp0 : pwl = 0
  · subst hp0
    have hpend : pendingBytesPart (.big ((pw : Nat) : Int)) (.num (0 : Int)) = .ok [] := by
      simp [pendingBytesPart, jsTruthy]
    refine ⟨wb, ?_, ?_⟩
    · simp [hwb, hpend, Bind.bind, Except.bind]
    · simp [hwbl]
  · have hpwpos : 0 < pwl := Nat.pos_of_ne_zero hp0
    have hpw2 : 2 ^ (8 * (pwl - 1)) ≤ pw := hpw hpwpos
    have hpwpos2 : 0 < pw := by
      have : (0 : Nat) < 2 ^ (8 * (pwl - 1)) := by positivity
      omega
    obtain ⟨pb, hpb, hpbl, hpend⟩ := pendingBytesPart_take pw pwl hpwpos2 hpwpos hpwl
    have hhex : 2 * pwl - 1 ≤ (natToHexChars pw).length := by
      have h16 : (16 : Nat) ^ (2 * (pwl - 1)) ≤ pw := by
        have e : (16 : Nat) ^ (2 * (pwl - 1)) = 2 ^ (8 * (pwl - 1)) := by
          rw [show (16 : Nat) = 2 ^ 4 from by norm_num, ← pow_mul]
          congr 1
          omega
        rw [e]
        exact hpw2
      have := natToHexChars_length_ge pw (2 * (pwl - 1)) h16
      omega
    have hpblen : (pb.take pwl).length = pwl := by
      rw [List.length_take]
      omega
    refine ⟨wb ++ pb.take pwl, ?_, ?_⟩
    · simp [hwb, hpend, Bind.bind, Except.bind]
    · simp only [List.length_append, hwbl, hpblen]

/-- C2 counterexample: with no data words and pending_word_len = 2 the
claim demands 2 bytes, but pending_word = 1 renders as the single byte
0x01; and a data word 0 (31 zero bytes of content) renders as one byte,
not 31, because BigInt.toString(16) drops leading zeros. -/
theorem c2_length_counterexample :
    collectCairoBytes (mkByteArrayRec [] (.big 1) (.num 2)) = .ok [1] ∧
    ¬ ((1 : Nat) = 31 * 0 + 2) ∧
    collectCairoBytes (mkByteArrayRec [.big 0] (.big 0) (.num 0)) = .ok [0] ∧
    ¬ ((1 : Nat) = 31 * 1 + 0) :=
  ⟨rfl, by decide, rfl, by decide⟩

/-- C2 witness: one full-width word and a two-byte pending word yield
31 + 2 = 33 bytes. -/
theorem c2_reassembly_length_witness :
    (∀ w ∈ [2 ^ 247], 2 ^ 240 ≤ w ∧ w < 2 ^ 248) ∧ (2 : Nat) ≤ 30 ∧
    (∃ bs,
      collectCairoBytes (mkByteArrayRec ([2 ^ 247].map (fun w => .big ((w : Nat) : Int)))
        (.big ((43981 : Nat) : Int)) (.num ((2 : Nat) : Int))) = .ok bs ∧
      bs.length = 31 * [2 ^ 247].length + 2) :=
  ⟨by decide, by decide,
    c2_reassembly_length [2 ^ 247] 43981 2 (by decide) (by decide) (fun _ => by decide)⟩

/-- C4 (amended): when pending_word is truthy (non-zero) and
parseInt(pending_word_len) is positive, the byte-collection phase
appends exactly `slice(0, pending_word_len)` of the odd-length-padded
big-endian hex rendering of pending_word — the leading bytes are kept
and only bytes beyond that count are discarded.  (A zero pending_word is
falsy and contributes nothing, unlike what the claim states — see the
counterexample.) -/
theorem c4_pending_truncation (ws : List Nat) (pw pwl : Nat)
    (hpw : 0 < pw) (hpwl1 : 0 < pwl) (hpwl2 : pwl ≤ 30) :
    ∃ wb pb,
      cairoWordsBytes (JSList.ofList (ws.map (fun w => .big ((w : Nat) : Int)))) = .ok wb ∧
      hexToBytes (padEven (intToHexChars ((pw : Nat) : Int))) = .ok pb ∧
      collectCairoBytes (mkByteArrayRec (ws.map (fun w => .big ((w : Nat) : Int)))
        (.big ((pw : Nat) : Int)) (.num ((pwl : Nat) : Int))) = .ok (wb ++ pb.take pwl) := by
  obtain ⟨wb, hwb⟩ := cairoWordsBytes_nat_ok ws
  obtain ⟨pb, hpb, _, hpend⟩ := pendingBytesPart_take pw pwl hpw hpwl1 hpwl2
  refine ⟨wb, pb, hwb, ?_, ?_⟩
  · rw [intToHexChars_ofNat]
    exact hpb
  · rw [collectCairoBytes_mkRec]
    simp [hwb, hpend, Bind.bind, Except.bind]

/-- C4 counterexample: with pending_word = 0 and pending_word_len = 1
the claim demands the first byte (0x00) of the padded hex rendering of
0, but the truthiness guard skips a zero pending_word entirely and
nothing is appended. -/
theorem c4_pending_counterexample :
    collectCairoBytes (mkByteArrayRec [] (.big 0) (.num 1)) = .ok [] ∧
    hexToBytes (padEven (intToHexChars 0)) = .ok [0] ∧
    ([] : List Nat) ≠ [0] :=
  ⟨rfl, rfl, by decide⟩

/-- C4 witness: pending word 0x1122334455 with pending_word_len = 2
contributes its first two bytes 0x11 0x22 — the leading bytes are kept,
the trailing ones discarded. -/
theorem c4_pending_truncation_witness :
    (∃ wb pb,
      cairoWordsBytes (JSList.ofList (([] : List Nat).map (fun w => .big ((w : Nat) : Int))))
        = .ok wb ∧
      hexToBytes (padEven (intToHexChars ((73588229205 : Nat) : Int))) = .ok pb ∧
      collectCairoBytes (mkByteArrayRec (([] : List Nat).map (fun w => .big ((w : Nat) : Int)))
        (.big ((73588229205 : Nat) : Int)) (.num ((2 : Nat) : Int))) = .ok (wb ++ pb.take 2)) ∧
    hexToBytes (padEven (intToHexChars ((73588229205 : Nat) : Int))) = .ok [17, 34, 51, 68, 85] :=
  ⟨c4_pending_truncation [] 73588229205 2 (by decide) (by decide) (by decide), rfl⟩
